import Mathlib

/-!
Verification of the `NetworkGraph` force-directed graph component
(`src/unnamed/part_004`, `acore-solidjs`).

The component is shallowly embedded over exact rational arithmetic `ℚ`.
JavaScript numbers are IEEE doubles; all claims checked here are about the
algebraic structure of the code (clamping, guards, transfers of equal and
opposite displacements, parametric line intersection over `+ - * /`), so `ℚ`
is used for coordinates and the irrational `Math` library functions
(`sqrt`, `hypot`, `cos`, `sin`, `atan2`) are abstracted as a `Trig`
structure of rational-valued functions.  Theorems quantify over every
`Trig`, so they hold in particular for any rational approximation of the
real functions; concrete witnesses instantiate `Trig` with `ratTrig`,
whose values agree with the IEEE functions at every point the witness
actually evaluates (exact angles such as `cos 0 = 1`, `sin 0 = 0`, and
square roots that are only compared against thresholds).
-/

set_option autoImplicit false
set_option maxRecDepth 100000

namespace NetworkGraph

/-- Embeds the `Node` type of the source: identity, label, optional current
position `x`/`y`, optional spring target `targetX`/`targetY`, and the list of
outgoing edge target ids.  A JS field holding `undefined` is `none`; the
source's optional `edges` array is modelled as a plain list, with `[]` for an
absent array (every use of `edges` in the source treats a missing array and an
empty one identically). -/
structure Node where
  id : String
  label : String
  x : Option ℚ
  y : Option ℚ
  targetX : Option ℚ
  targetY : Option ℚ
  edges : List String
  deriving DecidableEq

/-- Embeds the constant `layoutSettings` record of the source. -/
structure LayoutSettings where
  repulsionForce : ℚ
  attractionForce : ℚ
  distanceThreshold : ℚ
  minAttractionDistance : ℚ
  springForce : ℚ
  initialAnimationSpeed : ℚ
  minAnimationSpeed : ℚ
  animationSpeedDecreaseRate : ℚ
  animationSpeedDecreaseInterval : ℚ
  visualizationOpacityFactor : ℚ
  nodeRadius : ℚ
  canvasScaleMin : ℚ
  canvasScaleMax : ℚ
  canvasScaleStep : ℚ

/-- The source's `layoutSettings` values (`0.1 = 1/10`, `0.005 = 1/200`,
`0.001 = 1/1000`, `0.5 = 1/2` are exact in binary floating point and in `ℚ`). -/
def layoutSettings : LayoutSettings :=
  { repulsionForce := 50
    attractionForce := 1/10
    distanceThreshold := 100
    minAttractionDistance := 150
    springForce := 1/200
    initialAnimationSpeed := 25
    minAnimationSpeed := 5
    animationSpeedDecreaseRate := 1/10
    animationSpeedDecreaseInterval := 10
    visualizationOpacityFactor := 1/2
    nodeRadius := 15
    canvasScaleMin := 1/10
    canvasScaleMax := 5
    canvasScaleStep := 1/1000 }

/-- Abstraction of the `Math` library functions the component calls.
`sqrt q` models `Math.sqrt(q)`; `hypot a b` models `Math.hypot(a, b)`;
`cos2pi t` and `sin2pi t` model `Math.cos(t * 2 * Math.PI)` and
`Math.sin(t * 2 * Math.PI)` (the source only ever takes the cosine or sine of
a rational fraction `t` of a full turn, so angles are carried as turns);
`cosAtan2 dy dx` and `sinAtan2 dy dx` model `Math.cos(Math.atan2(dy, dx))`
and `Math.sin(Math.atan2(dy, dx))` (the source only ever composes
`cos`/`sin` with `atan2`). -/
structure Trig where
  sqrt : ℚ → ℚ
  hypot : ℚ → ℚ → ℚ
  cos2pi : ℚ → ℚ
  sin2pi : ℚ → ℚ
  cosAtan2 : ℚ → ℚ → ℚ
  sinAtan2 : ℚ → ℚ → ℚ

/-- One Heron step tower for the integer square root: starting from `x = n`
the iterate `(x + n / x) / 2` decreases strictly until it reaches
`⌊√n⌋`, so 128 steps reach the fixed point for every `n` below `2 ^ 64`. -/
def isqrtIter (n : Nat) : Nat → Nat → Nat
  | 0, x => x
  | Nat.succ fuel, x =>
    let y := (x + n / x) / 2
    if y < x then isqrtIter n fuel y else x

/-- Integer square root (`⌊√n⌋` for every input the developments below
evaluate), by structural recursion so that it reduces inside the kernel. -/
def isqrt (n : Nat) : Nat :=
  if n ≤ 1 then n else isqrtIter n 128 n

/-- Rational square root, rounding down: for `q = a / b ≥ 0` this is
`⌊√(a b)⌋ / b`, which agrees with the IEEE result on every threshold
comparison made below (all those comparisons have slack far larger than the
approximation error). -/
def ratSqrt (q : ℚ) : ℚ :=
  if q ≤ 0 then 0 else ((isqrt (q.num.toNat * q.den) : ℚ) / (q.den : ℚ))

/-- A concrete rational interpretation of the `Math` functions, used to
instantiate witnesses and counterexamples.  It is exact at the points those
concrete runs evaluate: `cos2pi 0 = 1`, `sin2pi 0 = 0` (IEEE
`Math.cos(0) = 1`, `Math.sin(0) = 0` exactly), `cosAtan2 0 x = 1` for
`x > 0`, and `hypot`/`sqrt` agree with IEEE on every threshold decision
taken (the runs only compare square roots against thresholds with wide
margins).  Values at other angles are irrational and are given an arbitrary
rational stand-in that no concrete run below ever reads. -/
def ratTrig : Trig :=
  { sqrt := ratSqrt
    hypot := fun a b => ratSqrt (a * a + b * b)
    cos2pi := fun t =>
      if t = 0 then 1 else if t = 1/4 then 0 else if t = 1/2 then -1 else
      if t = 3/4 then 0 else 0
    sin2pi := fun t =>
      if t = 0 then 0 else if t = 1/4 then 1 else if t = 1/2 then 0 else
      if t = 3/4 then -1 else 0
    cosAtan2 := fun dy dx =>
      if dx = 0 ∧ dy = 0 then 1 else dx / ratSqrt (dx * dx + dy * dy)
    sinAtan2 := fun dy dx =>
      if dx = 0 ∧ dy = 0 then 0 else dy / ratSqrt (dx * dx + dy * dy) }

/-- JavaScript truthiness of an optional numeric field: `undefined` and `0`
are falsy, every other rational is truthy.  This is exactly the test
performed by the source's `if (node.x && node.y) return;`. -/
def jsTruthy : Option ℚ → Bool
  | some v => v != 0
  | none => false

/-- Embeds the drag record `{ id, x, y }` stored in `state.nodeDragging`. -/
structure DragInfo where
  id : String
  x : ℚ
  y : ℚ
  deriving DecidableEq

/-- Embeds the component's `State` record. -/
structure State where
  nodes : List Node
  nodeDragging : Option DragInfo
  isPanning : Bool
  panOffset : ℚ × ℚ
  scale : ℚ
  lastPinchDistance : Option ℚ

/-- The initial state passed to `createSignal` (scale `0.9 = 9/10`). -/
def initialState (nodes : List Node) : State :=
  { nodes := nodes
    nodeDragging := none
    isPanning := false
    panOffset := (0, 0)
    scale := 9/10
    lastPinchDistance := none }

/-- Embeds the `setState` update performed by `onWheel`: the wheel delta is
multiplied by `canvasScaleStep`, negated, added to the scale and clamped by
`Math.min(Math.max(·, canvasScaleMin), canvasScaleMax)`.  The subsequent
`drawGraph()` call only redraws and runs the per-frame force pass on
`nodes`; it touches no other state field and is modelled separately by the
layout functions below. -/
def onWheel (deltaY : ℚ) (st : State) : State :=
  let scaleAmount := -deltaY * layoutSettings.canvasScaleStep
  { st with
      scale :=
        min (max (st.scale + scaleAmount) layoutSettings.canvasScaleMin)
          layoutSettings.canvasScaleMax }

/-- Embeds the two-finger branch of `onTouchStart`: record the current pinch
distance and change nothing else. -/
def onTouchStartPinch (distance : ℚ) (st : State) : State :=
  { st with lastPinchDistance := some distance }

/-- Embeds the `setState` update of `handlePinchZoom`: when a previous pinch
distance is recorded, the scale changes by `delta * canvasScaleStep * 0.5`
clamped into `[canvasScaleMin, canvasScaleMax]`, and the pinch distance is
updated; when no pinch distance is recorded nothing happens. -/
def handlePinchZoom (currentDistance : ℚ) (st : State) : State :=
  match st.lastPinchDistance with
  | none => st
  | some lastDistance =>
    let delta := currentDistance - lastDistance
    let scaleChange := delta * layoutSettings.canvasScaleStep * (1/2)
    { st with
        scale :=
          min (max (st.scale + scaleChange) layoutSettings.canvasScaleMin)
            layoutSettings.canvasScaleMax
        lastPinchDistance := some currentDistance }

/-- Embeds `onMouseUp`: `setState({ ...state(), nodeDragging: null,
isPanning: false })`.  Note that `lastPinchDistance` is not touched. -/
def onMouseUp (st : State) : State :=
  { st with nodeDragging := none, isPanning := false }

/-- Embeds `onTouchEnd`: clears `nodeDragging`, `isPanning` and
`lastPinchDistance`. -/
def onTouchEnd (st : State) : State :=
  { st with nodeDragging := none, isPanning := false, lastPinchDistance := none }

/-- A zoom-relevant input event: a wheel tick with its `deltaY`, a two-finger
touch start with its pinch distance, or a two-finger touch move with its
pinch distance. -/
inductive ZoomEvent where
  | wheel (deltaY : ℚ)
  | pinchStart (distance : ℚ)
  | pinchMove (distance : ℚ)
  deriving DecidableEq

/-- Dispatches one zoom event to the corresponding handler. -/
def applyZoomEvent (e : ZoomEvent) (st : State) : State :=
  match e with
  | ZoomEvent.wheel d => onWheel d st
  | ZoomEvent.pinchStart d => onTouchStartPinch d st
  | ZoomEvent.pinchMove d => handlePinchZoom d st

/-- Applies a sequence of zoom events in order. -/
def applyZoomEvents (evs : List ZoomEvent) (st : State) : State :=
  evs.foldl (fun s e => applyZoomEvent e s) st

/-- Embeds the rectangle records used for viewport bounds
(`{ left, top, right, bottom }`). -/
structure Rect where
  left : ℚ
  top : ℚ
  right : ℚ
  bottom : ℚ
  deriving DecidableEq

/-- The endpoint-inside-rectangle test used by `drawEdges` and
`lineIntersectsRect` (`x >= left && x <= right && y >= top && y <= bottom`). -/
def pointInRect (x y : ℚ) (rect : Rect) : Bool :=
  decide (rect.left ≤ x) && decide (x ≤ rect.right) &&
    decide (rect.top ≤ y) && decide (y ≤ rect.bottom)

/-- Embeds `lineIntersectsLine`: the standard parametric segment-segment
intersection test; a zero denominator (parallel lines) yields `false`. -/
def lineIntersectsLine (x1 y1 x2 y2 x3 y3 x4 y4 : ℚ) : Bool :=
  let denominator := (x1 - x2) * (y3 - y4) - (y1 - y2) * (x3 - x4)
  if denominator = 0 then false
  else
    let t := ((x1 - x3) * (y3 - y4) - (y1 - y3) * (x3 - x4)) / denominator
    let u := -((x1 - x2) * (y1 - y3) - (y1 - y2) * (x1 - x3)) / denominator
    decide (0 ≤ t) && decide (t ≤ 1) && decide (0 ≤ u) && decide (u ≤ 1)

/-- Embeds `lineIntersectsRect`: true when either endpoint lies in the
rectangle or the segment crosses one of its four sides. -/
def lineIntersectsRect (x1 y1 x2 y2 : ℚ) (rect : Rect) : Bool :=
  if pointInRect x1 y1 rect || pointInRect x2 y2 rect then true
  else
    lineIntersectsLine x1 y1 x2 y2 rect.left rect.top rect.right rect.top ||
    lineIntersectsLine x1 y1 x2 y2 rect.right rect.top rect.right rect.bottom ||
    lineIntersectsLine x1 y1 x2 y2 rect.right rect.bottom rect.left rect.bottom ||
    lineIntersectsLine x1 y1 x2 y2 rect.left rect.bottom rect.left rect.top

/-- Embeds the body of the `forEach` in `applySpringForces`: a node with
defined target and defined position moves `springForce` of the remaining
distance toward the target; any other node is left alone. -/
def springNode (node : Node) : Node :=
  match node.targetX, node.targetY with
  | some tx, some ty =>
    match node.x, node.y with
    | some x, some y =>
      { node with
          x := some (x + (tx - x) * layoutSettings.springForce)
          y := some (y + (ty - y) * layoutSettings.springForce) }
    | _, _ => node
  | _, _ => node

/-- Embeds `applySpringForces`: the spring update is applied to each node
independently. -/
def applySpringForces (st : List Node) : List Node :=
  st.map springNode

/-- `b` lies strictly between `a` and `c` (in either direction). -/
def strictlyBetween (a b c : ℚ) : Prop :=
  (a < b ∧ b < c) ∨ (c < b ∧ b < a)

instance (a b c : ℚ) : Decidable (strictlyBetween a b c) := by
  unfold strictlyBetween
  infer_instance

/-- Embeds the body of the doubly nested `forEach` in `applyRepulsionForces`
for the ordered index pair `(iA, iB)`: skip the diagonal and pairs with an
unpositioned node; when the two nodes are closer than `distanceThreshold`,
add the inverse-square repulsion displacement to node `iA` and subtract the
same displacement from node `iB`.  `speed` is the decaying `animationSpeed`
variable read by the handler. -/
def repulsionPair (tr : Trig) (speed : ℚ) (iA iB : Nat) (st : List Node) :
    List Node :=
  if iA = iB then st
  else
    match st.get? iA, st.get? iB with
    | some nodeA, some nodeB =>
      match nodeA.x, nodeA.y, nodeB.x, nodeB.y with
      | some ax, some ay, some bx, some bY =>
        let distanceX := ax - bx
        let distanceY := ay - bY
        let distance := tr.sqrt (distanceX * distanceX + distanceY * distanceY)
        if distance < layoutSettings.distanceThreshold then
          let force := layoutSettings.repulsionForce / (distance * distance)
          let c := tr.cosAtan2 distanceY distanceX
          let s := tr.sinAtan2 distanceY distanceX
          let visualizationOpacity := layoutSettings.visualizationOpacityFactor * speed
          let st1 := st.set iA
            { nodeA with
                x := some (ax + force * c * visualizationOpacity)
                y := some (ay + force * s * visualizationOpacity) }
          st1.set iB
            { nodeB with
                x := some (bx - force * c * visualizationOpacity)
                y := some (bY - force * s * visualizationOpacity) }
        else st
      | _, _, _, _ => st
    | _, _ => st

/-- Embeds `applyRepulsionForces`: both `forEach` loops run over the node
array's index range (the array object and its length are fixed for the whole
pass; each callback reads the nodes' current coordinates). -/
def applyRepulsionForces (tr : Trig) (speed : ℚ) (st : List Node) : List Node :=
  (List.range st.length).foldl
    (fun acc iA =>
      (List.range st.length).foldl (fun acc2 iB => repulsionPair tr speed iA iB acc2) acc)
    st

/-- Embeds the body of the inner `forEach` in `applyAttractionForces` for the
node at index `i` and one entry `edgeTargetNodeId` of its edge list: resolve
the target by id (`find` returns the first match); skip when it is missing or
either endpoint is unpositioned; otherwise, when the nodes are further apart
than `minAttractionDistance`, pull the node toward the target and the target
toward the node by the same displacement.  The target's coordinates are read
back after the node is updated, which reproduces the source's in-place object
mutation even when the edge resolves to the node itself. -/
def attractionEdge (tr : Trig) (st : List Node) (i : Nat)
    (edgeTargetNodeId : String) : List Node :=
  match st.get? i with
  | none => st
  | some node =>
    match st.findIdx? (fun n => n.id == edgeTargetNodeId) with
    | none => st
    | some j =>
      match st.get? j with
      | none => st
      | some targetNode =>
        match targetNode.x, targetNode.y, node.x, node.y with
        | some tx, some ty, some nx, some ny =>
          let distanceX := tx - nx
          let distanceY := ty - ny
          let distance := tr.sqrt (distanceX * distanceX + distanceY * distanceY)
          if layoutSettings.minAttractionDistance < distance then
            let force := layoutSettings.attractionForce *
              (distance - layoutSettings.minAttractionDistance)
            let c := tr.cosAtan2 distanceY distanceX
            let s := tr.sinAtan2 distanceY distanceX
            let st1 := st.set i
              { node with x := some (nx + force * c), y := some (ny + force * s) }
            match st1.get? j with
            | none => st1
            | some t1 =>
              st1.set j
                { t1 with
                    x := t1.x.map (fun v => v - force * c)
                    y := t1.y.map (fun v => v - force * s) }
          else st
        | _, _, _, _ => st

/-- Embeds the outer `forEach` body of `applyAttractionForces` for the node at
index `i`: iterate its edge list (an absent list iterates zero times). -/
def nodeAttraction (tr : Trig) (st : List Node) (i : Nat) : List Node :=
  match st.get? i with
  | none => st
  | some node => node.edges.foldl (fun acc e => attractionEdge tr acc i e) st

/-- Embeds `applyAttractionForces` over the node array's index range. -/
def applyAttractionForces (tr : Trig) (st : List Node) : List Node :=
  (List.range st.length).foldl (fun acc i => nodeAttraction tr acc i) st

/-- The spot-occupied test of `positionNodes`:
`memoizedNodes().some(n => Math.hypot(n.x! - testX, n.y! - testY) < 50)`.
For an unpositioned node the JS expression is `NaN < 50`, which is false, so
only positioned nodes can block a spot. -/
def spotBlocked (tr : Trig) (st : List Node) (testX testY : ℚ) : Bool :=
  st.any (fun n =>
    match n.x, n.y with
    | some nx, some ny => decide (tr.hypot (nx - testX) (ny - testY) < 50)
    | _, _ => false)

/-- The 36-step probe loop of `orderNodes`: every 10 degrees
(`testAngle = (i/360) * 2π`, carried here as the turn fraction `i/360`), the
first unblocked spot on the circle of the given radius wins. -/
def probeSpot (tr : Trig) (cx cy radius : ℚ) (st : List Node) : Option (ℚ × ℚ) :=
  (List.range 36).findSome? (fun k =>
    let t : ℚ := ((10 * k : Nat) : ℚ) / 360
    let testX := cx + radius * tr.cos2pi t
    let testY := cy + radius * tr.sin2pi t
    if spotBlocked tr st testX testY then none else some (testX, testY))

/-- The radius-growing `while` loop of `orderNodes`, taken when no probed spot
is free: grow the radius by 10 while the spot at the node's own angle is
blocked.  The source loop has no bound; `fuel` caps the iterations (every
claim below either holds for all fuel values or is witnessed by a run that
terminates well within its fuel). -/
def growRadius (tr : Trig) (cx cy angleTurn : ℚ) (st : List Node) :
    Nat → ℚ → ℚ
  | 0, radius => radius
  | Nat.succ fuel, radius =>
    let x := cx + radius * tr.cos2pi angleTurn
    let y := cy + radius * tr.sin2pi angleTurn
    if spotBlocked tr st x y then growRadius tr cx cy angleTurn st fuel (radius + 10)
    else radius

/-- Indices of the nodes whose edge list contains `nodeId`
(`memoizedNodes().filter(n => n.edges && n.edges.includes(node.id))`,
with each object identified by its index in the node array). -/
def connectedIdx (st : List Node) (nodeId : String) : List Nat :=
  (List.range st.length).filter (fun j =>
    match st.get? j with
    | some n => n.edges.contains nodeId
    | none => false)

/-- The spot `orderNodes` places a node on, together with the (possibly
grown) radius passed on to the recursion: the first free probed spot keeps
the current radius; otherwise the radius grows until the spot at the node's
own angle is free and that spot is used. -/
def theSpot (tr : Trig) (cx cy radius : ℚ) (fuel : Nat) (angleTurn : ℚ)
    (st : List Node) : ℚ × ℚ × ℚ :=
  match probeSpot tr cx cy radius st with
  | some p => (p.1, p.2, radius)
  | none =>
    (cx + growRadius tr cx cy angleTurn st fuel radius * tr.cos2pi angleTurn,
     cy + growRadius tr cx cy angleTurn st fuel radius * tr.sin2pi angleTurn,
     growRadius tr cx cy angleTurn st fuel radius)

/-- The node record after `node.x = x; node.y = y` for a chosen spot. -/
def placedNode (node : Node) (spot : ℚ × ℚ × ℚ) : Node :=
  { node with x := some spot.1, y := some spot.2.1 }

/-- The `connectedNodes.forEach((connectedNode, connectedIndex) =>
orderNodes(connectedNode, connectedNodes.length, connectedIndex, radius))`
recursion step of `orderNodes`, abstracted over the recursive call `rec`. -/
def orderConn (rec : Nat → Nat → Nat → ℚ → List Node → List Node)
    (conn : List Nat) (radius : ℚ) (st : List Node) : List Node :=
  conn.enum.foldl (fun acc p => rec p.2 conn.length p.1 radius acc) st

/-- Embeds the recursive `orderNodes` closure of `positionNodes`, acting on
the node at index `i` of the state (`length`/`index` are the sibling count
and position that fix the node's angle `(index/length) * 2π`, carried as the
turn fraction `index/length`).  A node whose `x` and `y` are both JS-truthy
is left untouched; otherwise the node is placed on the first free probed
spot, or failing that at its own angle on the first free grown radius, and
the placement recurses into the nodes that have an edge to this node.  The
source's recursion is unbounded (it terminates only when placements make the
truthiness guard fire); `fuel` caps the recursion depth.  The source also
maintains a `positionedNodes` set that is written but never read; it is
omitted. -/
def orderNodes (tr : Trig) (cx cy : ℚ) :
    Nat → Nat → Nat → Nat → ℚ → List Node → List Node
  | 0 => fun _ _ _ _ st => st
  | Nat.succ fuel => fun i length index radius st =>
    match st.get? i with
    | none => st
    | some node =>
      if jsTruthy node.x && jsTruthy node.y then st
      else
        orderConn (orderNodes tr cx cy fuel)
          (connectedIdx
            (st.set i (placedNode node
              (theSpot tr cx cy radius (Nat.succ fuel) ((index : ℚ) / (length : ℚ)) st)))
            node.id)
          (theSpot tr cx cy radius (Nat.succ fuel) ((index : ℚ) / (length : ℚ)) st).2.2
          (st.set i (placedNode node
            (theSpot tr cx cy radius (Nat.succ fuel) ((index : ℚ) / (length : ℚ)) st)))

/-- Embeds `positionNodes`: every node with an empty (or absent) edge list is
ordered around the center at base radius 200. -/
def positionNodes (tr : Trig) (fuel : Nat) (cx cy : ℚ) (st : List Node) :
    List Node :=
  let nodesWithoutEdges := (List.range st.length).filter (fun j =>
    match st.get? j with
    | some n => n.edges.isEmpty
    | none => false)
  nodesWithoutEdges.enum.foldl
    (fun acc p => orderNodes tr cx cy fuel p.2 nodesWithoutEdges.length p.1 200 acc)
    st

/-- One drawing command emitted by `drawEdges` (a stroked segment with its
stroke style). -/
structure EdgeDraw where
  x1 : ℚ
  y1 : ℚ
  x2 : ℚ
  y2 : ℚ
  strokeStyle : String
  deriving DecidableEq

/-- Embeds the body of the inner `forEach` in `drawEdges` for one edge of the
node named `nodeId`: both endpoints are resolved by id with `find` (the
source looks the drawn node itself up by its own id); a missing node or an
unpositioned endpoint draws nothing; an edge that fails the viewport cull
draws nothing; otherwise a segment is stroked, highlighted when either
endpoint is the dragged node. -/
def drawEdgeCmd (st : List Node) (nodeDraggingId : Option String) (vb : Rect)
    (nodeId : String) (edgeTargetNodeId : String) : Option EdgeDraw :=
  match st.find? (fun n => n.id == nodeId),
      st.find? (fun n => n.id == edgeTargetNodeId) with
  | some sourceNode, some targetNode =>
    match sourceNode.x, sourceNode.y, targetNode.x, targetNode.y with
    | some sx, some sy, some tx, some ty =>
      let edgeIntersectsViewport :=
        pointInRect sx sy vb || pointInRect tx ty vb ||
          lineIntersectsRect sx sy tx ty vb
      if edgeIntersectsViewport then
        some
          { x1 := sx, y1 := sy, x2 := tx, y2 := ty
            strokeStyle :=
              if nodeDraggingId == some nodeId ||
                  nodeDraggingId == some edgeTargetNodeId then "yellow"
              else "gray" }
      else none
    | _, _, _, _ => none
  | _, _ => none

/-- Embeds `drawEdges` as the list of segments it strokes, in order.  The
viewport bounds are computed from the backing-store size `w × h`, the device
pixel ratio and the zoom scale exactly as in the source. -/
def drawEdges (w h dpr scale : ℚ) (nodeDraggingId : Option String)
    (st : List Node) : List EdgeDraw :=
  let canvasWidth := w / dpr
  let canvasHeight := h / dpr
  let padding := 50 / scale
  let viewportBounds : Rect :=
    { left := -padding
      top := -padding
      right := canvasWidth / scale + padding
      bottom := canvasHeight / scale + padding }
  st.foldl
    (fun acc node =>
      acc ++ node.edges.filterMap
        (fun e => drawEdgeCmd st nodeDraggingId viewportBounds node.id e))
    []

/-- A node is positioned when both coordinates are defined. -/
def positioned (n : Node) : Bool :=
  n.x.isSome && n.y.isSome

/-- The x coordinate of a node, defaulting to 0 when undefined. -/
def xval (n : Node) : ℚ :=
  n.x.getD 0

/-- The y coordinate of a node, defaulting to 0 when undefined. -/
def yval (n : Node) : ℚ :=
  n.y.getD 0

/-- The per-node translation applied by `centerNodesOnCanvas`
(`x: node.x !== undefined ? node.x + offsetX : node.x`, and likewise for
`y`): a defined coordinate is shifted, an undefined one stays undefined. -/
def shiftNode (ox oy : ℚ) (n : Node) : Node :=
  { n with x := n.x.map (fun v => v + ox), y := n.y.map (fun v => v + oy) }

/-- Embeds `centerNodesOnCanvas` for a canvas with backing-store size
`w × h` and device pixel ratio `dpr`: compute the bounding box of the
positioned nodes (the source's `±Infinity`-seeded `forEach` fold equals a
fold seeded with the first positioned node's coordinates, the list being
nonempty in this branch), then shift every defined coordinate of every node
by the offset that centers that box on the canvas center.  An empty node list
or an absence of positioned nodes leaves the state untouched. -/
def centerNodesOnCanvas (w h dpr : ℚ) (st : State) : State :=
  if st.nodes.isEmpty then st
  else
    match st.nodes.filter (fun n => positioned n) with
    | [] => st
    | p :: ps =>
      let minX := ps.foldl (fun m n => min m (xval n)) (xval p)
      let minY := ps.foldl (fun m n => min m (yval n)) (yval p)
      let maxX := ps.foldl (fun m n => max m (xval n)) (xval p)
      let maxY := ps.foldl (fun m n => max m (yval n)) (yval p)
      let nodesCenterX := (minX + maxX) / 2
      let nodesCenterY := (minY + maxY) / 2
      let canvasCenterX := w / dpr / 2
      let canvasCenterY := h / dpr / 2
      let offsetX := canvasCenterX - nodesCenterX
      let offsetY := canvasCenterY - nodesCenterY
      { st with nodes := st.nodes.map (shiftNode offsetX offsetY) }

/-- The x coordinate a node contributes to the positioned-node sum: its `x`
when both coordinates are defined, `0` otherwise. -/
def pxval (n : Node) : ℚ :=
  match n.x, n.y with
  | some a, some _ => a
  | _, _ => 0

/-- The y coordinate a node contributes to the positioned-node sum. -/
def pyval (n : Node) : ℚ :=
  match n.x, n.y with
  | some _, some b => b
  | _, _ => 0

/-- Sum of the x coordinates of the positioned nodes of a list. -/
def posSumX (l : List Node) : ℚ :=
  (l.map pxval).sum

/-- Sum of the y coordinates of the positioned nodes of a list. -/
def posSumY (l : List Node) : ℚ :=
  (l.map pyval).sum

/-- Midpoint of the x extent of a node list's bounding box (`none` for an
empty list), folded exactly like `centerNodesOnCanvas` computes it. -/
def bboxMidX : List Node → Option ℚ
  | [] => none
  | p :: ps =>
    some ((ps.foldl (fun m n => min m (xval n)) (xval p) +
      ps.foldl (fun m n => max m (xval n)) (xval p)) / 2)

/-- Midpoint of the y extent of a node list's bounding box. -/
def bboxMidY : List Node → Option ℚ
  | [] => none
  | p :: ps =>
    some ((ps.foldl (fun m n => min m (yval n)) (yval p) +
      ps.foldl (fun m n => max m (yval n)) (yval p)) / 2)

/-- Concrete input for the `positionNodes` counterexample: a caller-supplied
node whose coordinates are both defined, with `x = 0`.  `0` is JS-falsy, so
the guard `if (node.x && node.y) return;` does not fire for it. -/
def cexPosNode : Node :=
  { id := "a", label := "a", x := some 0, y := some 5
    targetX := none, targetY := none, edges := [] }

/-- Concrete node with JS-truthy coordinates, for the positioning witness. -/
def okPosNode : Node :=
  { id := "b", label := "b", x := some 3, y := some 4
    targetX := none, targetY := none, edges := [] }

/-- Concrete node for the spring counterexample: its position `(0, 0)`
differs from its target `(0, 1)` but its x coordinate already equals
`targetX`. -/
def springCexNode : Node :=
  { id := "c", label := "c", x := some 0, y := some 0
    targetX := some 0, targetY := some 1, edges := [] }

/-- Concrete node for the spring witness. -/
def springWitNode : Node :=
  { id := "d", label := "d", x := some 1, y := some 2
    targetX := some 3, targetY := some 2, edges := [] }

/-- Concrete positioned node at the origin, for the repulsion witness. -/
def repWitNodeA : Node :=
  { id := "ra", label := "ra", x := some 0, y := some 0
    targetX := none, targetY := none, edges := [] }

/-- Concrete positioned node at `(30, 40)` (distance 50 from the origin),
for the repulsion witness. -/
def repWitNodeB : Node :=
  { id := "rb", label := "rb", x := some 30, y := some 40
    targetX := none, targetY := none, edges := [] }

/-- Concrete node whose edge list references the id `"zzz"`, which no node
carries, for the dangling-edge witness. -/
def danglingEdgeNode : Node :=
  { id := "a", label := "a", x := some 1, y := some 2
    targetX := none, targetY := none, edges := ["zzz"] }

/-- Concrete state holding one positioned node, for the centering witness. -/
def centerWitState : State :=
  initialState
    [{ id := "a", label := "a", x := some 10, y := some 20
       targetX := none, targetY := none, edges := [] }]

/-- Concrete state recorded mid-pinch, for the pointer-up counterexample. -/
def pinchingState : State :=
  { nodes := []
    nodeDragging := none
    isPanning := true
    panOffset := (0, 0)
    scale := 1
    lastPinchDistance := some 10 }

/-! ## Helper lemmas -/

/-- A property preserved by every step of a left fold is preserved by the
whole fold. -/
theorem foldl_inv {α β : Type} {P : α → Prop} (f : α → β → α)
    (hf : ∀ s b, P s → P (f s b)) :
    ∀ (l : List β) (s : α), P s → P (l.foldl f s)
  | [], _, h => h
  | b :: l, s, h => foldl_inv f hf l (f s b) (hf s b h)

/-- Clamping with `Math.min(Math.max(x, lo), hi)` lands in `[lo, hi]` as soon
as `lo ≤ hi`. -/
theorem clamp_mem (x : ℚ) {lo hi : ℚ} (h : lo ≤ hi) :
    lo ≤ min (max x lo) hi ∧ min (max x lo) hi ≤ hi :=
  ⟨le_min (le_max_right x lo) h, min_le_right _ _⟩

/-- Every zoom handler keeps the scale inside the configured bounds. -/
theorem applyZoomEvent_scale_mem (e : ZoomEvent) (st : State)
    (h : layoutSettings.canvasScaleMin ≤ st.scale ∧
      st.scale ≤ layoutSettings.canvasScaleMax) :
    layoutSettings.canvasScaleMin ≤ (applyZoomEvent e st).scale ∧
      (applyZoomEvent e st).scale ≤ layoutSettings.canvasScaleMax := by
  have hlh : layoutSettings.canvasScaleMin ≤ layoutSettings.canvasScaleMax := by
    norm_num [layoutSettings]
  cases e with
  | wheel d => exact clamp_mem _ hlh
  | pinchStart d => exact h
  | pinchMove d =>
    cases hl : st.lastPinchDistance with
    | none => simpa [applyZoomEvent, handlePinchZoom, hl] using h
    | some v =>
      simpa [applyZoomEvent, handlePinchZoom, hl] using
        clamp_mem (st.scale + (d - v) * layoutSettings.canvasScaleStep * (1/2)) hlh

/-! ## C1: zoom scale stays within the configured bounds -/

/-- C1: for every node list and every sequence of wheel, pinch-start and
pinch-move events applied from the initial state, the zoom scale stays in
`[canvasScaleMin, canvasScaleMax] = [1/10, 5]`; both handlers clamp into
those bounds, and the initial scale `9/10` lies within them. -/
theorem C1_zoom_scale_clamped (ns : List Node) (evs : List ZoomEvent) :
    (layoutSettings.canvasScaleMin ≤ (applyZoomEvents evs (initialState ns)).scale ∧
      (applyZoomEvents evs (initialState ns)).scale ≤ layoutSettings.canvasScaleMax) ∧
    layoutSettings.canvasScaleMin = 1/10 ∧ layoutSettings.canvasScaleMax = 5 ∧
    layoutSettings.canvasScaleMin ≤ (initialState ns).scale ∧
    (initialState ns).scale ≤ layoutSettings.canvasScaleMax := by
  refine ⟨?_, rfl, rfl, ?_, ?_⟩
  · exact foldl_inv _ (fun s e h => applyZoomEvent_scale_mem e s h) evs _
      (by norm_num [initialState, layoutSettings])
  · norm_num [initialState, layoutSettings]
  · norm_num [initialState, layoutSettings]

/-! ## C3: what a wheel event actually does -/

/-- C3 counterexample: the claim predicts that a wheel event with
`deltaY = 100` changes the scale by `canvasScaleStep` times the delta's sign,
i.e. from `9/10` to `clamp(9/10 - 1/1000) = 899/1000`; the handler instead
adds `-deltaY * canvasScaleStep = -1/10` and yields `4/5`. -/
theorem C3_wheel_counterexample :
    (onWheel 100 (initialState [])).scale = 4/5 ∧
    min (max ((initialState []).scale + layoutSettings.canvasScaleStep * (-1))
        layoutSettings.canvasScaleMin) layoutSettings.canvasScaleMax = 899/1000 ∧
    (4/5 : ℚ) ≠ 899/1000 := by
  refine ⟨?_, ?_, by norm_num⟩
  · with_unfolding_all decide
  · with_unfolding_all decide

/-- C3 amended: a wheel event adds `-deltaY * canvasScaleStep` (the step
times the negated wheel delta value, not merely its sign) to the scale and
clamps the result into the zoom bounds, leaving `isPanning`, `panOffset` and
`nodeDragging` unchanged. -/
theorem C3_wheel_amended (deltaY : ℚ) (st : State) :
    (onWheel deltaY st).scale =
      min (max (st.scale + -deltaY * layoutSettings.canvasScaleStep)
        layoutSettings.canvasScaleMin) layoutSettings.canvasScaleMax ∧
    (onWheel deltaY st).isPanning = st.isPanning ∧
    (onWheel deltaY st).panOffset = st.panOffset ∧
    (onWheel deltaY st).nodeDragging = st.nodeDragging := by
  exact ⟨rfl, rfl, rfl, rfl⟩

/-! ## C5: segment-rectangle intersection -/

/-- C5: the horizontal segment from `(-50, 50)` to `(150, 50)` crosses the
100 × 100 rectangle `[0, 100] × [0, 100]` although both endpoints are
outside it, and `lineIntersectsRect` returns `true`; the segment from
`(-50, 50)` to `(-10, 50)` lies entirely to the left of the rectangle and
the test returns `false`; and the segment-segment test `lineIntersectsLine`
returns `false` whenever its parametric denominator is zero (parallel
segments). -/
theorem C5_line_intersects_rect :
    lineIntersectsRect (-50) 50 150 50 ⟨0, 0, 100, 100⟩ = true ∧
    pointInRect (-50) 50 ⟨0, 0, 100, 100⟩ = false ∧
    pointInRect 150 50 ⟨0, 0, 100, 100⟩ = false ∧
    lineIntersectsRect (-50) 50 (-10) 50 ⟨0, 0, 100, 100⟩ = false ∧
    (∀ x1 y1 x2 y2 x3 y3 x4 y4 : ℚ,
      (x1 - x2) * (y3 - y4) - (y1 - y2) * (x3 - x4) = 0 →
      lineIntersectsLine x1 y1 x2 y2 x3 y3 x4 y4 = false) := by
  refine ⟨?_, ?_, ?_, ?_, ?_⟩
  · with_unfolding_all decide
  · with_unfolding_all decide
  · with_unfolding_all decide
  · with_unfolding_all decide
  · intro x1 y1 x2 y2 x3 y3 x4 y4 h
    simp only [lineIntersectsLine, h, if_pos]

/-- C5 witness: the parallel-segment conjunct applied to two horizontal
segments. -/
theorem C5_line_intersects_rect_witness :
    ((0:ℚ) - 1) * ((0:ℚ) - 0) - ((0:ℚ) - 0) * ((0:ℚ) - 1) = 0 ∧
    lineIntersectsLine 0 0 1 0 0 1 1 1 = false := by
  constructor
  · norm_num
  · exact C5_line_intersects_rect.2.2.2.2 0 0 1 0 0 1 1 1 (by norm_num)

/-! ## C6: the spring step, coordinate by coordinate -/

/-- C6 counterexample: `springCexNode` has defined position `(0, 0)` and
defined target `(0, 1)`, which differ, yet the spring step leaves its `x`
at `0`, and no rational lies strictly between `0` and `0`; so the claim that
every coordinate moves strictly between its old value and the target fails. -/
theorem C6_spring_counterexample :
    springCexNode.x = some 0 ∧ springCexNode.y = some 0 ∧
    springCexNode.targetX = some 0 ∧ springCexNode.targetY = some 1 ∧
    ((0 : ℚ), (0 : ℚ)) ≠ ((0 : ℚ), (1 : ℚ)) ∧
    (springNode springCexNode).x = some 0 ∧
    ¬ strictlyBetween (0 : ℚ) 0 0 := by
  refine ⟨rfl, rfl, rfl, rfl, by norm_num [Prod.ext_iff], ?_, ?_⟩
  · with_unfolding_all decide
  · with_unfolding_all decide

/-- C6 amended: for a node with defined position and defined target, the
spring step sends each coordinate `c` to `c + (target - c) * springForce`;
each coordinate that differs from its target moves strictly between its old
value and the target (so it gets strictly closer, never overshoots and never
reaches it), while a coordinate already equal to its target stays put. -/
theorem C6_spring_amended (n : Node) (x y tx ty : ℚ)
    (hx : n.x = some x) (hy : n.y = some y)
    (htx : n.targetX = some tx) (hty : n.targetY = some ty) :
    (springNode n).x = some (x + (tx - x) * layoutSettings.springForce) ∧
    (springNode n).y = some (y + (ty - y) * layoutSettings.springForce) ∧
    (x ≠ tx → strictlyBetween x (x + (tx - x) * layoutSettings.springForce) tx) ∧
    (y ≠ ty → strictlyBetween y (y + (ty - y) * layoutSettings.springForce) ty) ∧
    (x = tx → x + (tx - x) * layoutSettings.springForce = x) ∧
    (y = ty → y + (ty - y) * layoutSettings.springForce = y) := by
  have hsf : layoutSettings.springForce = 1/200 := rfl
  refine ⟨?_, ?_, ?_, ?_, ?_, ?_⟩
  · simp [springNode, hx, hy, htx, hty]
  · simp [springNode, hx, hy, htx, hty]
  · intro hne
    rcases lt_or_gt_of_ne hne with hlt | hgt
    · exact Or.inl ⟨by rw [hsf]; linarith, by rw [hsf]; linarith⟩
    · exact Or.inr ⟨by rw [hsf]; linarith, by rw [hsf]; linarith⟩
  · intro hne
    rcases lt_or_gt_of_ne hne with hlt | hgt
    · exact Or.inl ⟨by rw [hsf]; linarith, by rw [hsf]; linarith⟩
    · exact Or.inr ⟨by rw [hsf]; linarith, by rw [hsf]; linarith⟩
  · intro he
    rw [he]; ring
  · intro he
    rw [he]; ring

/-- C6 witness: the amended spring theorem at `springWitNode`, whose `x`
differs from its target and whose `y` equals its target. -/
theorem C6_spring_witness :
    (springNode springWitNode).x =
      some (1 + (3 - 1) * layoutSettings.springForce) ∧
    strictlyBetween 1 (1 + (3 - 1) * layoutSettings.springForce) 3 ∧
    (2 : ℚ) + (2 - 2) * layoutSettings.springForce = 2 :=
  ⟨(C6_spring_amended springWitNode 1 2 3 2 rfl rfl rfl rfl).1,
    (C6_spring_amended springWitNode 1 2 3 2 rfl rfl rfl rfl).2.2.1 (by norm_num),
    (C6_spring_amended springWitNode 1 2 3 2 rfl rfl rfl rfl).2.2.2.2.2 rfl⟩

/-! ## C8: pointer-up and touch-end -/

/-- C8 counterexample: in a state recorded mid-pinch
(`lastPinchDistance = some 10`), `onMouseUp` leaves `lastPinchDistance`
untouched instead of clearing it, so the interaction state is not fully
cleared back to idle. -/
theorem C8_pointer_up_counterexample :
    pinchingState.lastPinchDistance = some 10 ∧
    (onMouseUp pinchingState).lastPinchDistance = some 10 ∧
    some (10 : ℚ) ≠ none := by
  exact ⟨rfl, rfl, by simp⟩

/-- C8 amended: for every state, `onMouseUp` clears `nodeDragging` and
`isPanning` but leaves `lastPinchDistance` (and the nodes) unchanged, while
`onTouchEnd` clears all three of `nodeDragging`, `isPanning` and
`lastPinchDistance` (and also leaves the nodes unchanged). -/
theorem C8_pointer_up_amended (st : State) :
    (onMouseUp st).nodeDragging = none ∧
    (onMouseUp st).isPanning = false ∧
    (onMouseUp st).lastPinchDistance = st.lastPinchDistance ∧
    (onMouseUp st).nodes = st.nodes ∧
    (onTouchEnd st).nodeDragging = none ∧
    (onTouchEnd st).isPanning = false ∧
    (onTouchEnd st).lastPinchDistance = none ∧
    (onTouchEnd st).nodes = st.nodes := by
  exact ⟨rfl, rfl, rfl, rfl, rfl, rfl, rfl, rfl⟩

/-! ## C2: the positioning pass and its truthiness guard -/

/-- A fold of `orderConn` preserves any property each recursive call
preserves. -/
theorem orderConn_inv {P : List Node → Prop}
    (rec : Nat → Nat → Nat → ℚ → List Node → List Node)
    (hrec : ∀ (j l k : Nat) (r : ℚ) (s : List Node), P s → P (rec j l k r s))
    (conn : List Nat) (radius : ℚ) (st : List Node) (h : P st) :
    P (orderConn rec conn radius st) :=
  foldl_inv _ (fun s b hp => hrec b.2 conn.length b.1 radius s hp) conn.enum st h

/-- A node whose coordinates are both JS-truthy is never written by
`orderNodes`: its list entry is preserved verbatim, at every fuel. -/
theorem orderNodes_get?_eq (tr : Trig) (cx cy : ℚ) (i0 : Nat) (n0 : Node)
    (hx : jsTruthy n0.x = true) (hy : jsTruthy n0.y = true) :
    ∀ (fuel i length index : Nat) (radius : ℚ) (st : List Node),
      st.get? i0 = some n0 →
      (orderNodes tr cx cy fuel i length index radius st).get? i0 = some n0 := by
  intro fuel
  induction fuel with
  | zero =>
    intro i length index radius st h
    simpa [orderNodes] using h
  | succ fuel ih =>
    intro i length index radius st h
    simp only [orderNodes]
    cases hgi : st.get? i with
    | none => exact h
    | some node =>
      by_cases hg : (jsTruthy node.x && jsTruthy node.y) = true
      · simp only [hg, if_true]
        exact h
      · simp only [Bool.not_eq_true] at hg
        simp only [hg, Bool.false_eq_true, if_false]
        have hne : i ≠ i0 := by
          intro e
          subst e
          rw [h] at hgi
          injection hgi with e2
          rw [← e2, hx, hy] at hg
          simp at hg
        exact orderConn_inv _ (fun j l k r s hp => ih j l k r s hp) _ _ _
          (by rw [List.get?_set_ne _ _ hne]; exact h)

/-- When every node of the state has JS-truthy coordinates, `orderNodes` is
the identity on that state. -/
theorem orderNodes_id_of_truthy (tr : Trig) (cx cy : ℚ) (st : List Node)
    (hall : ∀ n ∈ st, jsTruthy n.x = true ∧ jsTruthy n.y = true)
    (fuel i length index : Nat) (radius : ℚ) :
    orderNodes tr cx cy fuel i length index radius st = st := by
  cases fuel with
  | zero => rfl
  | succ fuel =>
    simp only [orderNodes]
    cases hgi : st.get? i with
    | none => rfl
    | some node =>
      have hmem := hall node (List.get?_mem hgi)
      simp [hmem.1, hmem.2]

/-- C2 counterexample: the caller-supplied node `cexPosNode` has both
coordinates defined (`x = 0`, `y = 5`), yet one run of `positionNodes`
(canvas center `(200, 150)`) repositions it: `0` is JS-falsy, so the guard
`if (node.x && node.y) return;` does not protect it and the pass moves it to
the first free probed spot `(400, 150)`.  So a node that already has
coordinates is repositioned by the pass, contradicting the claim. -/
theorem C2_positioning_counterexample :
    cexPosNode.x = some 0 ∧ cexPosNode.y = some 5 ∧
    positionNodes ratTrig 4 200 150 [cexPosNode] ≠ [cexPosNode] := by
  refine ⟨rfl, rfl, ?_⟩
  with_unfolding_all decide

/-- C2 amended: the positioning pass never repositions a node whose `x` and
`y` are both defined and nonzero (JS-truthy) — its entry is preserved
verbatim — and consequently a second run changes nothing provided every
node's coordinates are truthy; a node with an undefined coordinate or a
coordinate equal to exactly `0` is not protected by the truthiness guard and
may be repositioned. -/
theorem C2_positioning_amended (tr : Trig) (fuel : Nat) (cx cy : ℚ)
    (st : List Node) :
    (∀ i n, st.get? i = some n → jsTruthy n.x = true → jsTruthy n.y = true →
      (positionNodes tr fuel cx cy st).get? i = some n) ∧
    ((∀ n ∈ st, jsTruthy n.x = true ∧ jsTruthy n.y = true) →
      positionNodes tr fuel cx cy st = st) := by
  constructor
  · intro i n hget hx hy
    exact foldl_inv _
      (fun s b hp => orderNodes_get?_eq tr cx cy i n hx hy fuel b.2 _ b.1 200 s hp)
      _ st hget
  · intro hall
    exact @foldl_inv _ _ (fun s => s = st) _
      (fun s b hp => by
        rw [hp]
        exact orderNodes_id_of_truthy tr cx cy st hall fuel b.2 _ b.1 200)
      _ st rfl

/-- C2 witness: the amended theorem applied to a singleton state whose node
has truthy coordinates `(3, 4)`. -/
theorem C2_positioning_witness :
    jsTruthy okPosNode.x = true ∧ jsTruthy okPosNode.y = true ∧
    (positionNodes ratTrig 4 200 150 [okPosNode]).get? 0 = some okPosNode := by
  refine ⟨by with_unfolding_all decide, by with_unfolding_all decide, ?_⟩
  exact (C2_positioning_amended ratTrig 4 200 150 [okPosNode]).1 0 okPosNode rfl
    (by with_unfolding_all decide) (by with_unfolding_all decide)

/-! ## C7: dangling edge references are skipped -/

/-- C7: an edge whose target id matches no node in the set is skipped
without error by both the attraction pass (the per-edge step returns the
state unchanged, so no node position changes on account of it) and edge
rendering (the per-edge step draws nothing); both functions are total, so no
exception is raised and no error value is produced. -/
theorem C7_missing_edge_skipped (tr : Trig) (st : List Node) (i : Nat)
    (e : String) (hmiss : ∀ n ∈ st, n.id ≠ e) :
    attractionEdge tr st i e = st ∧
    (∀ (dragId : Option String) (vb : Rect) (nodeId : String),
      drawEdgeCmd st dragId vb nodeId e = none) := by
  have hfi : st.findIdx? (fun n => n.id == e) = none := by
    rw [List.findIdx?_eq_none_iff]
    intro n hn
    simpa using hmiss n hn
  have hf : st.find? (fun n => n.id == e) = none := by
    rw [List.find?_eq_none]
    intro n hn
    simpa using hmiss n hn
  constructor
  · unfold attractionEdge
    cases hgi : st.get? i with
    | none => simp [hgi]
    | some node => simp [hgi, hfi]
  · intro dragId vb nodeId
    unfold drawEdgeCmd
    cases hs : st.find? (fun n => n.id == nodeId) with
    | none => simp [hs, hf]
    | some s => simp [hs, hf]

/-- C7 witness: a single node `"a"` with a dangling edge to `"zzz"`. -/
theorem C7_missing_edge_skipped_witness :
    danglingEdgeNode.id ≠ "zzz" ∧
    attractionEdge ratTrig [danglingEdgeNode] 0 "zzz" = [danglingEdgeNode] ∧
    drawEdgeCmd [danglingEdgeNode] none ⟨0, 0, 100, 100⟩ "a" "zzz" = none := by
  have h := C7_missing_edge_skipped ratTrig [danglingEdgeNode] 0 "zzz"
    (by decide)
  exact ⟨by decide, h.1, h.2 none ⟨0, 0, 100, 100⟩ "a"⟩

/-! ## C9: centering the nodes on the canvas -/

/-- Shifting preserves positionedness. -/
theorem positioned_shiftNode (ox oy : ℚ) (n : Node) :
    positioned (shiftNode ox oy n) = positioned n := by
  cases hx : n.x <;> cases hy : n.y <;> simp [positioned, shiftNode, hx, hy]

/-- Filtering the positioned nodes commutes with shifting every node. -/
theorem filter_positioned_map_shift (ox oy : ℚ) :
    ∀ l : List Node,
      (l.map (shiftNode ox oy)).filter (fun n => positioned n) =
        (l.filter (fun n => positioned n)).map (shiftNode ox oy)
  | [] => rfl
  | n :: l => by
    cases hp : positioned n with
    | false =>
      simp only [List.map_cons, List.filter_cons, positioned_shiftNode, hp]
      exact filter_positioned_map_shift ox oy l
    | true =>
      simp only [List.map_cons, List.filter_cons, positioned_shiftNode, hp,
        if_true, List.map_cons]
      rw [filter_positioned_map_shift ox oy l]

/-- A positioned node's `xval` shifts by exactly the x offset. -/
theorem xval_shiftNode {n : Node} (ox oy : ℚ) (h : positioned n = true) :
    xval (shiftNode ox oy n) = xval n + ox := by
  cases hx : n.x with
  | none => simp [positioned, hx] at h
  | some v => simp [xval, shiftNode, hx]

/-- A positioned node's `yval` shifts by exactly the y offset. -/
theorem yval_shiftNode {n : Node} (ox oy : ℚ) (h : positioned n = true) :
    yval (shiftNode ox oy n) = yval n + oy := by
  cases hy : n.y with
  | none => simp [positioned, hy] at h
  | some v => simp [yval, shiftNode, hy]

/-- A fold of a translation-equivariant binary operation over per-node
values that all shift by `c` shifts the fold result by `c`. -/
theorem foldl_op_shift (op : ℚ → ℚ → ℚ)
    (hop : ∀ a b c : ℚ, op (a + c) (b + c) = op a b + c)
    (f g : Node → ℚ) (c : ℚ) :
    ∀ (l : List Node) (a : ℚ), (∀ n ∈ l, g n = f n + c) →
      l.foldl (fun m n => op m (g n)) (a + c) =
        l.foldl (fun m n => op m (f n)) a + c
  | [], _, _ => rfl
  | n :: l, a, hmem => by
    simp only [List.foldl_cons]
    rw [hmem n (List.mem_cons_self n l), hop,
      foldl_op_shift op hop f g c l (op a (f n))
        (fun m hm => hmem m (List.mem_cons_of_mem n hm))]

/-- C9: when at least one node is positioned, `centerNodesOnCanvas`
translates every node by one common offset (so every positioned node moves
by that offset and every undefined coordinate stays undefined), and
afterwards the midpoint of the bounding box of the positioned nodes is the
canvas center — the backing-store dimensions divided by the device pixel
ratio, halved. -/
theorem C9_center_nodes (w hgt dpr : ℚ) (st : State)
    (hne : st.nodes.filter (fun n => positioned n) ≠ []) :
    ∃ ox oy,
      (centerNodesOnCanvas w hgt dpr st).nodes = st.nodes.map (shiftNode ox oy) ∧
      bboxMidX ((centerNodesOnCanvas w hgt dpr st).nodes.filter
        (fun n => positioned n)) = some (w / dpr / 2) ∧
      bboxMidY ((centerNodesOnCanvas w hgt dpr st).nodes.filter
        (fun n => positioned n)) = some (hgt / dpr / 2) ∧
      (∀ n, (shiftNode ox oy n).x = n.x.map (fun v => v + ox) ∧
        (shiftNode ox oy n).y = n.y.map (fun v => v + oy)) := by
  rcases hfl : st.nodes.filter (fun n => positioned n) with _ | ⟨p, ps⟩
  · exact absurd hfl hne
  have hnil : st.nodes.isEmpty = false := by
    cases hn : st.nodes with
    | nil => rw [hn] at hfl; simp at hfl
    | cons a l => simp
  have hposmem : ∀ n ∈ p :: ps, positioned n = true := by
    intro n hn
    rw [← hfl] at hn
    exact (List.mem_filter.mp hn).2
  have hres : (centerNodesOnCanvas w hgt dpr st).nodes =
      st.nodes.map (shiftNode
        (w / dpr / 2 - (ps.foldl (fun m n => min m (xval n)) (xval p) +
          ps.foldl (fun m n => max m (xval n)) (xval p)) / 2)
        (hgt / dpr / 2 - (ps.foldl (fun m n => min m (yval n)) (yval p) +
          ps.foldl (fun m n => max m (yval n)) (yval p)) / 2)) := by
    simp only [centerNodesOnCanvas, hnil, Bool.false_eq_true, if_false, hfl]
  refine ⟨_, _, hres, ?_, ?_, fun n => ⟨rfl, rfl⟩⟩
  · rw [hres, filter_positioned_map_shift, hfl, List.map_cons, bboxMidX,
      List.foldl_map, List.foldl_map,
      xval_shiftNode _ _ (hposmem p (List.mem_cons_self p ps))]
    rw [foldl_op_shift min (fun a b c => min_add_add_right a b c) xval _ _
        ps _ (fun n hn => xval_shiftNode _ _ (hposmem n (List.mem_cons_of_mem p hn))),
      foldl_op_shift max (fun a b c => max_add_add_right a b c) xval _ _
        ps _ (fun n hn => xval_shiftNode _ _ (hposmem n (List.mem_cons_of_mem p hn)))]
    congr 1
    ring
  · rw [hres, filter_positioned_map_shift, hfl, List.map_cons, bboxMidY,
      List.foldl_map, List.foldl_map,
      yval_shiftNode _ _ (hposmem p (List.mem_cons_self p ps))]
    rw [foldl_op_shift min (fun a b c => min_add_add_right a b c) yval _ _
        ps _ (fun n hn => yval_shiftNode _ _ (hposmem n (List.mem_cons_of_mem p hn))),
      foldl_op_shift max (fun a b c => max_add_add_right a b c) yval _ _
        ps _ (fun n hn => yval_shiftNode _ _ (hposmem n (List.mem_cons_of_mem p hn)))]
    congr 1
    ring

/-- C9 witness: the centering theorem applied to a 400 × 300 canvas at
pixel ratio 1 with one positioned node at `(10, 20)`. -/
theorem C9_center_nodes_witness :
    centerWitState.nodes.filter (fun n => positioned n) ≠ [] ∧
    ∃ ox oy,
      (centerNodesOnCanvas 400 300 1 centerWitState).nodes =
        centerWitState.nodes.map (shiftNode ox oy) ∧
      bboxMidX ((centerNodesOnCanvas 400 300 1 centerWitState).nodes.filter
        (fun n => positioned n)) = some (400 / 1 / 2) ∧
      bboxMidY ((centerNodesOnCanvas 400 300 1 centerWitState).nodes.filter
        (fun n => positioned n)) = some (300 / 1 / 2) ∧
      (∀ n, (shiftNode ox oy n).x = n.x.map (fun v => v + ox) ∧
        (shiftNode ox oy n).y = n.y.map (fun v => v + oy)) :=
  ⟨by with_unfolding_all decide, C9_center_nodes 400 300 1 centerWitState
    (by with_unfolding_all decide)⟩

/-! ## C10 and C4: the force passes transfer equal and opposite
displacements -/

/-- Unfolding `posSumX` over a cons cell. -/
theorem posSumX_cons (n : Node) (l : List Node) :
    posSumX (n :: l) = pxval n + posSumX l := by
  simp [posSumX]

/-- Unfolding `posSumY` over a cons cell. -/
theorem posSumY_cons (n : Node) (l : List Node) :
    posSumY (n :: l) = pyval n + posSumY l := by
  simp [posSumY]

/-- Writing one entry changes the positioned x sum by the difference of
contributions. -/
theorem posSumX_set : ∀ (l : List Node) (i : Nat) (n v : Node),
    l.get? i = some n → posSumX (l.set i v) = posSumX l - pxval n + pxval v
  | [], _, _, _, h => by simp at h
  | b :: l, 0, n, v, h => by
    injection h with h1
    subst h1
    simp only [List.set_cons_zero, posSumX_cons]
    ring
  | b :: l, Nat.succ i, n, v, h => by
    simp only [List.set_cons_succ, posSumX_cons, posSumX_set l i n v h]
    ring

/-- Writing one entry changes the positioned y sum by the difference of
contributions. -/
theorem posSumY_set : ∀ (l : List Node) (i : Nat) (n v : Node),
    l.get? i = some n → posSumY (l.set i v) = posSumY l - pyval n + pyval v
  | [], _, _, _, h => by simp at h
  | b :: l, 0, n, v, h => by
    injection h with h1
    subst h1
    simp only [List.set_cons_zero, posSumY_cons]
    ring
  | b :: l, Nat.succ i, n, v, h => by
    simp only [List.set_cons_succ, posSumY_cons, posSumY_set l i n v h]
    ring

/-- `pxval` of a node with both coordinates defined. -/
theorem pxval_of_some {n : Node} {a b : ℚ} (hx : n.x = some a)
    (hy : n.y = some b) : pxval n = a := by
  simp [pxval, hx, hy]

/-- `pyval` of a node with both coordinates defined. -/
theorem pyval_of_some {n : Node} {a b : ℚ} (hx : n.x = some a)
    (hy : n.y = some b) : pyval n = b := by
  simp [pyval, hx, hy]

/-- A two-index write that adds a displacement at `i` and subtracts the same
displacement at `j` preserves both positioned coordinate sums. -/
theorem posSum_transfer (st : List Node) (i j : Nat) (hij : i ≠ j)
    (nA nB A1 B1 : Node) (hA : st.get? i = some nA) (hB : st.get? j = some nB)
    (ax ay bx bY ex ey : ℚ)
    (hax : nA.x = some ax) (hay : nA.y = some ay)
    (hbx : nB.x = some bx) (hby : nB.y = some bY)
    (hA1x : A1.x = some (ax + ex)) (hA1y : A1.y = some (ay + ey))
    (hB1x : B1.x = some (bx - ex)) (hB1y : B1.y = some (bY - ey)) :
    posSumX ((st.set i A1).set j B1) = posSumX st ∧
    posSumY ((st.set i A1).set j B1) = posSumY st := by
  have hB' : (st.set i A1).get? j = some nB := by
    rw [List.get?_set_ne _ _ hij]
    exact hB
  constructor
  · rw [posSumX_set _ _ _ _ hB', posSumX_set _ _ _ _ hA,
      pxval_of_some hax hay, pxval_of_some hbx hby,
      pxval_of_some hA1x hA1y, pxval_of_some hB1x hB1y]
    ring
  · rw [posSumY_set _ _ _ _ hB', posSumY_set _ _ _ _ hA,
      pyval_of_some hax hay, pyval_of_some hbx hby,
      pyval_of_some hA1x hA1y, pyval_of_some hB1x hB1y]
    ring

/-- One repulsion pair update preserves both positioned coordinate sums: the
displacement added to node `iA` is subtracted from node `iB`. -/
theorem repulsionPair_posSum (tr : Trig) (speed : ℚ) (iA iB : Nat)
    (st : List Node) :
    posSumX (repulsionPair tr speed iA iB st) = posSumX st ∧
    posSumY (repulsionPair tr speed iA iB st) = posSumY st := by
  unfold repulsionPair
  by_cases hij : iA = iB
  · simp [hij]
  simp only [hij, if_false]
  cases hA : st.get? iA with
  | none => exact ⟨rfl, rfl⟩
  | some nA =>
    cases hB : st.get? iB with
    | none => exact ⟨rfl, rfl⟩
    | some nB =>
      obtain ⟨idA, labA, nAx, nAy, tXA, tYA, eA⟩ := nA
      obtain ⟨idB, labB, nBx, nBy, tXB, tYB, eB⟩ := nB
      cases nAx with
      | none => exact ⟨rfl, rfl⟩
      | some ax =>
        cases nAy with
        | none => exact ⟨rfl, rfl⟩
        | some ay =>
          cases nBx with
          | none => exact ⟨rfl, rfl⟩
          | some bx =>
            cases nBy with
            | none => exact ⟨rfl, rfl⟩
            | some bY =>
              dsimp only
              by_cases hd : tr.sqrt ((ax - bx) * (ax - bx) + (ay - bY) * (ay - bY))
                  < layoutSettings.distanceThreshold
              · rw [if_pos hd]
                exact posSum_transfer st iA iB hij _ _ _ _ hA hB ax ay bx bY _ _
                  rfl rfl rfl rfl rfl rfl rfl rfl
              · rw [if_neg hd]
                exact ⟨rfl, rfl⟩

/-- The whole repulsion pass preserves both positioned coordinate sums. -/
theorem applyRepulsionForces_posSum (tr : Trig) (speed : ℚ) (st : List Node) :
    posSumX (applyRepulsionForces tr speed st) = posSumX st ∧
    posSumY (applyRepulsionForces tr speed st) = posSumY st := by
  unfold applyRepulsionForces
  exact @foldl_inv _ _
    (fun s => posSumX s = posSumX st ∧ posSumY s = posSumY st) _
    (fun s iA hp =>
      @foldl_inv _ _
        (fun s2 => posSumX s2 = posSumX st ∧ posSumY s2 = posSumY st) _
        (fun s2 iB hp2 =>
          ⟨(repulsionPair_posSum tr speed iA iB s2).1.trans hp2.1,
            (repulsionPair_posSum tr speed iA iB s2).2.trans hp2.2⟩)
        _ s hp)
    _ st ⟨rfl, rfl⟩

/-- One attraction edge update preserves both positioned coordinate sums,
including the degenerate case where the edge resolves to the node itself
(the source then mutates one object twice and the net change cancels). -/
theorem attractionEdge_posSum (tr : Trig) (st : List Node) (i : Nat)
    (e : String) :
    posSumX (attractionEdge tr st i e) = posSumX st ∧
    posSumY (attractionEdge tr st i e) = posSumY st := by
  unfold attractionEdge
  cases hN : st.get? i with
  | none => exact ⟨rfl, rfl⟩
  | some node =>
    cases hJ : st.findIdx? (fun n => n.id == e) with
    | none => exact ⟨rfl, rfl⟩
    | some j =>
      dsimp only
      cases hT : st.get? j with
      | none => exact ⟨rfl, rfl⟩
      | some targetNode =>
        obtain ⟨idN, labN, nX, nY, tXN, tYN, eN⟩ := node
        obtain ⟨idT, labT, tX, tY, tXT, tYT, eT⟩ := targetNode
        cases tX with
        | none => exact ⟨rfl, rfl⟩
        | some tx =>
          cases tY with
          | none => exact ⟨rfl, rfl⟩
          | some ty =>
            cases nX with
            | none => exact ⟨rfl, rfl⟩
            | some nx =>
              cases nY with
              | none => exact ⟨rfl, rfl⟩
              | some ny =>
                dsimp only
                by_cases hd : layoutSettings.minAttractionDistance <
                    tr.sqrt ((tx - nx) * (tx - nx) + (ty - ny) * (ty - ny))
                · rw [if_pos hd]
                  by_cases hij : j = i
                  · subst hij
                    rw [hN] at hT
                    injection hT with hT1
                    injection hT1 with e1 e2 e3 e4 e5 e6 e7
                    injection e3 with e3
                    injection e4 with e4
                    subst e1
                    subst e2
                    subst e3
                    subst e4
                    subst e5
                    subst e6
                    subst e7
                    have hj1 : (st.set j
                        (Node.mk idN labN
                          (some (nx + layoutSettings.attractionForce *
                            (tr.sqrt ((nx - nx) * (nx - nx) + (ny - ny) * (ny - ny)) -
                              layoutSettings.minAttractionDistance) *
                            tr.cosAtan2 (ny - ny) (nx - nx)))
                          (some (ny + layoutSettings.attractionForce *
                            (tr.sqrt ((nx - nx) * (nx - nx) + (ny - ny) * (ny - ny)) -
                              layoutSettings.minAttractionDistance) *
                            tr.sinAtan2 (ny - ny) (nx - nx)))
                          tXN tYN eN)).get? j
                      = some (Node.mk idN labN
                          (some (nx + layoutSettings.attractionForce *
                            (tr.sqrt ((nx - nx) * (nx - nx) + (ny - ny) * (ny - ny)) -
                              layoutSettings.minAttractionDistance) *
                            tr.cosAtan2 (ny - ny) (nx - nx)))
                          (some (ny + layoutSettings.attractionForce *
                            (tr.sqrt ((nx - nx) * (nx - nx) + (ny - ny) * (ny - ny)) -
                              layoutSettings.minAttractionDistance) *
                            tr.sinAtan2 (ny - ny) (nx - nx)))
                          tXN tYN eN) := by
                      rw [List.get?_set_eq, hN]
                      rfl
                    simp only [hj1]
                    constructor
                    · rw [posSumX_set _ _ _ _ hj1, posSumX_set _ _ _ _ hN,
                        pxval_of_some rfl rfl, pxval_of_some rfl rfl,
                        pxval_of_some rfl rfl]
                      ring
                    · rw [posSumY_set _ _ _ _ hj1, posSumY_set _ _ _ _ hN,
                        pyval_of_some rfl rfl, pyval_of_some rfl rfl,
                        pyval_of_some rfl rfl]
                      ring
                  · have hji : i ≠ j := fun h => hij h.symm
                    have hj1 : ((st.set i
                        (Node.mk idN labN
                          (some (nx + layoutSettings.attractionForce *
                            (tr.sqrt ((tx - nx) * (tx - nx) + (ty - ny) * (ty - ny)) -
                              layoutSettings.minAttractionDistance) *
                            tr.cosAtan2 (ty - ny) (tx - nx)))
                          (some (ny + layoutSettings.attractionForce *
                            (tr.sqrt ((tx - nx) * (tx - nx) + (ty - ny) * (ty - ny)) -
                              layoutSettings.minAttractionDistance) *
                            tr.sinAtan2 (ty - ny) (tx - nx)))
                          tXN tYN eN)).get? j)
                      = some (Node.mk idT labT (some tx) (some ty) tXT tYT eT) := by
                      rw [List.get?_set_ne _ _ hji]
                      exact hT
                    simp only [hj1]
                    exact posSum_transfer st i j hji _ _ _ _ hN hT nx ny tx ty _ _
                      rfl rfl rfl rfl rfl rfl rfl rfl
                · rw [if_neg hd]
                  exact ⟨rfl, rfl⟩

/-- The whole attraction pass preserves both positioned coordinate sums. -/
theorem applyAttractionForces_posSum (tr : Trig) (st : List Node) :
    posSumX (applyAttractionForces tr st) = posSumX st ∧
    posSumY (applyAttractionForces tr st) = posSumY st := by
  unfold applyAttractionForces
  refine @foldl_inv _ _
    (fun s => posSumX s = posSumX st ∧ posSumY s = posSumY st) _
    (fun s i hp => ?_) _ st ⟨rfl, rfl⟩
  unfold nodeAttraction
  cases hN : s.get? i with
  | none => exact hp
  | some node =>
    exact @foldl_inv _ _
      (fun s2 => posSumX s2 = posSumX st ∧ posSumY s2 = posSumY st) _
      (fun s2 e hp2 =>
        ⟨(attractionEdge_posSum tr s2 i e).1.trans hp2.1,
          (attractionEdge_posSum tr s2 i e).2.trans hp2.2⟩)
      node.edges s hp

/-- C10: under exact arithmetic, one full repulsion pass and one full
attraction pass each leave the sum of the x coordinates and the sum of the
y coordinates of the positioned nodes unchanged (so the positioned nodes'
centroid is invariant): every individual update displaces two positioned
nodes by opposite vectors, and pairs with an unpositioned node or an
unresolvable edge are skipped. -/
theorem C10_centroid_invariant (tr : Trig) (speed : ℚ) (st : List Node) :
    posSumX (applyRepulsionForces tr speed st) = posSumX st ∧
    posSumY (applyRepulsionForces tr speed st) = posSumY st ∧
    posSumX (applyAttractionForces tr st) = posSumX st ∧
    posSumY (applyAttractionForces tr st) = posSumY st :=
  ⟨(applyRepulsionForces_posSum tr speed st).1,
    (applyRepulsionForces_posSum tr speed st).2,
    (applyAttractionForces_posSum tr st).1,
    (applyAttractionForces_posSum tr st).2⟩

/-- One repulsion pair update keeps every entry's coordinate-definedness
pattern: it only ever overwrites defined coordinates with defined ones. -/
theorem repulsionPair_pattern (tr : Trig) (speed : ℚ) (iA iB k : Nat)
    (st : List Node) :
    ((repulsionPair tr speed iA iB st).get? k).map
        (fun n => (n.x.isSome, n.y.isSome)) =
      (st.get? k).map (fun n => (n.x.isSome, n.y.isSome)) := by
  unfold repulsionPair
  by_cases hij : iA = iB
  · simp [hij]
  simp only [hij, if_false]
  cases hA : st.get? iA with
  | none => rfl
  | some nA =>
    cases hB : st.get? iB with
    | none => rfl
    | some nB =>
      obtain ⟨idA, labA, nAx, nAy, tXA, tYA, eA⟩ := nA
      obtain ⟨idB, labB, nBx, nBy, tXB, tYB, eB⟩ := nB
      cases nAx with
      | none => rfl
      | some ax =>
        cases nAy with
        | none => rfl
        | some ay =>
          cases nBx with
          | none => rfl
          | some bx =>
            cases nBy with
            | none => rfl
            | some bY =>
              dsimp only
              by_cases hd : tr.sqrt ((ax - bx) * (ax - bx) + (ay - bY) * (ay - bY))
                  < layoutSettings.distanceThreshold
              · rw [if_pos hd]
                by_cases hkA : k = iA
                · subst hkA
                  rw [List.get?_set_ne _ _ (fun h => hij h.symm),
                    List.get?_set_eq, hA]
                  rfl
                · by_cases hkB : k = iB
                  · subst hkB
                    rw [List.get?_set_eq, List.get?_set_ne _ _ hij, hB]
                    rfl
                  · rw [List.get?_set_ne _ _ (fun h => hkB h.symm),
                      List.get?_set_ne _ _ (fun h => hkA h.symm)]
              · rw [if_neg hd]

/-- The repulsion pass keeps every entry's coordinate-definedness pattern. -/
theorem applyRepulsionForces_pattern (tr : Trig) (speed : ℚ) (st : List Node)
    (k : Nat) :
    ((applyRepulsionForces tr speed st).get? k).map
        (fun n => (n.x.isSome, n.y.isSome)) =
      (st.get? k).map (fun n => (n.x.isSome, n.y.isSome)) := by
  unfold applyRepulsionForces
  exact @foldl_inv _ _
    (fun s => (s.get? k).map (fun n => (n.x.isSome, n.y.isSome)) =
      (st.get? k).map (fun n => (n.x.isSome, n.y.isSome))) _
    (fun s iA hp =>
      @foldl_inv _ _
        (fun s2 => (s2.get? k).map (fun n => (n.x.isSome, n.y.isSome)) =
          (st.get? k).map (fun n => (n.x.isSome, n.y.isSome))) _
        (fun s2 iB hp2 =>
          (repulsionPair_pattern tr speed iA iB k s2).trans hp2)
        _ s hp)
    _ st rfl

/-- One repulsion pair update does not change the node array's length. -/
theorem repulsionPair_length (tr : Trig) (speed : ℚ) (iA iB : Nat)
    (st : List Node) :
    (repulsionPair tr speed iA iB st).length = st.length := by
  unfold repulsionPair
  by_cases hij : iA = iB
  · simp [hij]
  simp only [hij, if_false]
  cases hA : st.get? iA with
  | none => rfl
  | some nA =>
    cases hB : st.get? iB with
    | none => rfl
    | some nB =>
      obtain ⟨idA, labA, nAx, nAy, tXA, tYA, eA⟩ := nA
      obtain ⟨idB, labB, nBx, nBy, tXB, tYB, eB⟩ := nB
      cases nAx with
      | none => rfl
      | some ax =>
        cases nAy with
        | none => rfl
        | some ay =>
          cases nBx with
          | none => rfl
          | some bx =>
            cases nBy with
            | none => rfl
            | some bY =>
              dsimp only
              by_cases hd : tr.sqrt ((ax - bx) * (ax - bx) + (ay - bY) * (ay - bY))
                  < layoutSettings.distanceThreshold
              · rw [if_pos hd]
                simp [List.length_set]
              · rw [if_neg hd]

/-- The repulsion pass does not change the node array's length. -/
theorem applyRepulsionForces_length (tr : Trig) (speed : ℚ) (st : List Node) :
    (applyRepulsionForces tr speed st).length = st.length := by
  unfold applyRepulsionForces
  exact @foldl_inv _ _ (fun s => s.length = st.length) _
    (fun s iA hp =>
      @foldl_inv _ _ (fun s2 => s2.length = st.length) _
        (fun s2 iB hp2 => (repulsionPair_length tr speed iA iB s2).trans hp2)
        _ s hp)
    _ st rfl

/-- C4: for two positioned nodes `A`, `B` closer than the repulsion
threshold, with no other node present, one full pass of
`applyRepulsionForces` produces nodes `A'`, `B'` that are still positioned,
and the total displacement applied to `A` is the exact negation of the total
displacement applied to `B` — equal in magnitude and opposite in
direction, componentwise. -/
theorem C4_repulsion_symmetry (tr : Trig) (speed : ℚ) (A B : Node)
    (ax ay bx bY : ℚ)
    (hAx : A.x = some ax) (hAy : A.y = some ay)
    (hBx : B.x = some bx) (hBy : B.y = some bY)
    (hclose : tr.sqrt ((ax - bx) * (ax - bx) + (ay - bY) * (ay - bY)) <
      layoutSettings.distanceThreshold) :
    ∃ A' B', applyRepulsionForces tr speed [A, B] = [A', B'] ∧
      A'.x.isSome = true ∧ A'.y.isSome = true ∧
      B'.x.isSome = true ∧ B'.y.isSome = true ∧
      xval A' - ax = -(xval B' - bx) ∧ yval A' - ay = -(yval B' - bY) := by
  have hlen : (applyRepulsionForces tr speed [A, B]).length = 2 :=
    applyRepulsionForces_length tr speed [A, B]
  obtain ⟨A', B', hAB⟩ := List.length_eq_two.mp hlen
  have hpat0 := applyRepulsionForces_pattern tr speed [A, B] 0
  have hpat1 := applyRepulsionForces_pattern tr speed [A, B] 1
  rw [hAB] at hpat0 hpat1
  simp [hAx, hAy] at hpat0
  simp [hBx, hBy] at hpat1
  obtain ⟨hA'x, hA'y⟩ := hpat0
  obtain ⟨hB'x, hB'y⟩ := hpat1
  obtain ⟨a'x, ha'x⟩ := Option.isSome_iff_exists.mp hA'x
  obtain ⟨a'y, ha'y⟩ := Option.isSome_iff_exists.mp hA'y
  obtain ⟨b'x, hb'x⟩ := Option.isSome_iff_exists.mp hB'x
  obtain ⟨b'y, hb'y⟩ := Option.isSome_iff_exists.mp hB'y
  have hsx := (applyRepulsionForces_posSum tr speed [A, B]).1
  have hsy := (applyRepulsionForces_posSum tr speed [A, B]).2
  rw [hAB] at hsx hsy
  simp only [posSumX, posSumY, List.map_cons, List.map_nil, List.sum_cons,
    List.sum_nil] at hsx hsy
  rw [pxval_of_some hAx hAy, pxval_of_some hBx hBy,
    pxval_of_some ha'x ha'y, pxval_of_some hb'x hb'y] at hsx
  rw [pyval_of_some hAx hAy, pyval_of_some hBx hBy,
    pyval_of_some ha'x ha'y, pyval_of_some hb'x hb'y] at hsy
  refine ⟨A', B', hAB, hA'x, hA'y, hB'x, hB'y, ?_, ?_⟩
  · rw [xval, xval, ha'x, hb'x]
    simp only [Option.getD_some]
    linarith
  · rw [yval, yval, ha'y, hb'y]
    simp only [Option.getD_some]
    linarith

/-- C4 witness: the symmetry theorem applied to nodes at `(0, 0)` and
`(30, 40)` (distance 50, below the threshold 100). -/
theorem C4_repulsion_symmetry_witness :
    ratTrig.sqrt ((0 - 30) * (0 - 30) + (0 - 40) * (0 - 40)) <
      layoutSettings.distanceThreshold ∧
    ∃ A' B', applyRepulsionForces ratTrig 25 [repWitNodeA, repWitNodeB] = [A', B'] ∧
      A'.x.isSome = true ∧ A'.y.isSome = true ∧
      B'.x.isSome = true ∧ B'.y.isSome = true ∧
      xval A' - 0 = -(xval B' - 30) ∧ yval A' - 0 = -(yval B' - 40) :=
  ⟨by with_unfolding_all decide,
    C4_repulsion_symmetry ratTrig 25 repWitNodeA repWitNodeB 0 0 30 40
      rfl rfl rfl rfl (by with_unfolding_all decide)⟩

end NetworkGraph
